import Mathlib

/-!
Shallow embedding of the combi-dex auction engine (model and auction crates).

Rust `f64` values are modelled as rationals; every arithmetic operation the
embedded code performs (addition, subtraction, multiplication, division,
comparison, `min`, `max`) is mapped to the corresponding exact operation on
`ℚ`.  Division by zero does not arise in any of the runs considered here.

Rust `HashMap`s are modelled as association lists with replace-on-insert
semantics; only lookups and replacing inserts are performed by the embedded
code, so iteration-order nondeterminism of the Rust `HashMap` is irrelevant
to every result proved below.

`Arc<User>` is modelled as a pair of an allocation identity and the
pointed-to `User` value; `Arc::clone` yields a handle with the same
allocation identity, and `Arc::get_mut` succeeds exactly when the strong
reference count of the allocation is one.  The strong count visible to
`Clearing::clear_winning_bids` is the number of handles held by the
not-yet-processed bids plus the handles stored in its `users` map plus an
arbitrary count `external` of handles held elsewhere by the caller.
-/

set_option maxRecDepth 10000

attribute [local semireducible] Rat.mul Rat.add Rat.sub Rat.inv

/-- model.rs `User`. -/
structure User where
  id : Nat
  name : String
  balance : ℚ
deriving Repr, DecidableEq

/-- model.rs `User::can_afford`. -/
def User.can_afford (u : User) (amount : ℚ) : Bool :=
  decide (u.balance ≥ amount)

/-- model.rs `User::withdraw` (result of the mutation). -/
def User.withdraw (u : User) (amount : ℚ) : User :=
  { u with balance := u.balance - amount }

/-- model.rs `Asset`. -/
structure Asset where
  base : String
  quote : String
deriving Repr, DecidableEq

/-- model.rs `AssetInfo`. -/
structure AssetInfo where
  asset : Asset
  quantity : ℚ
  price : ℚ
deriving Repr, DecidableEq

/-- model.rs `AssetInfo::total_value`. -/
def AssetInfo.total_value (a : AssetInfo) : ℚ :=
  a.quantity * a.price

/-- model.rs `Basket`. -/
structure Basket where
  id : Nat
  assets : List AssetInfo
deriving Repr, DecidableEq

/-- model.rs `BidType`. -/
inductive BidType where
  | XOR
  | OR
deriving Repr, DecidableEq

/-- An `Arc<User>` handle: allocation identity plus the pointed-to user.
`Arc::clone` copies the handle (same `alloc`). -/
structure ArcUser where
  alloc : Nat
  val : User
deriving Repr, DecidableEq

/-- model.rs `Bid`. -/
structure Bid where
  user : ArcUser
  basket_id : Nat
  bid_type : BidType
  price : ℚ
  quantity : Option ℚ
deriving Repr, DecidableEq

/-- model.rs `Bid::is_valid`:
`self.user.can_afford(self.price) && self.price > 0.0 &&
 self.quantity.map_or(true, |q| q > 0.0 && q <= 1.0)`. -/
def Bid.is_valid (b : Bid) : Bool :=
  b.user.val.can_afford b.price && decide (0 < b.price) &&
    (match b.quantity with
     | none => true
     | some q => decide (0 < q) && decide (q ≤ 1))

/-- Replace-on-insert for an association list: the model of
`HashMap::insert` (and of `Entry::or_insert` followed by assignment). -/
def insertReplace [BEq α] : List (α × β) → α → β → List (α × β)
  | [], k, v => [(k, v)]
  | (k', v') :: rest, k, v =>
    if k' == k then (k, v) :: rest else (k', v') :: insertReplace rest k v

/-- helpers.rs `filter_valid_bids`. -/
def filter_valid_bids (bids : List Bid) (basket : Basket) : List Bid :=
  (bids.filter (fun b => b.basket_id == basket.id)).filter (fun b => b.is_valid)

/-- helpers.rs `allocate_basket`: per winning bid, one `AssetInfo` per basket
asset scaled by the bid's quantity fraction; inserted keyed by bidder id. -/
def allocate_basket (bids : List Bid) (basket : Basket) :
    List (Nat × List AssetInfo) :=
  bids.foldl (fun allocation b =>
    let proportion := b.quantity.getD 1
    let allocated_assets := basket.assets.map (fun a =>
      let quantity := a.quantity * proportion
      AssetInfo.mk a.asset quantity (a.price * quantity))
    insertReplace allocation b.user.val.id allocated_assets) []

/-- wdp.rs `WDPSolver::maximize_welfare_vcg`: every valid bid is selected and
its price added to the total welfare. -/
def WDPSolver.maximize_welfare_vcg (bids : List Bid) (basket : Basket) :
    List Bid × ℚ :=
  let valid_bids := filter_valid_bids bids basket
  (valid_bids, valid_bids.foldl (fun acc b => acc + b.price) 0)

/-- The selection loop of wdp.rs `WDPSolver::maximize_welfare_cca`, threading
the remaining per-asset supply, the set of already-selected bidder ids, the
selected bids and the accumulated total value. -/
def ccaSelect (basketAssets : List AssetInfo) :
    List Bid → List (String × ℚ) → List Nat → List Bid → ℚ → List Bid × ℚ
  | [], _, _, selected, total => (selected, total)
  | b :: rest, remaining, selectedUsers, selected, total =>
    if selectedUsers.contains b.user.val.id then
      ccaSelect basketAssets rest remaining selectedUsers selected total
    else
      let canFulfillBid := basketAssets.all (fun a =>
        let available := (List.lookup a.asset.base remaining).getD 0
        decide (b.quantity.getD 1 * a.quantity ≤ available))
      if canFulfillBid then
        let remaining' := basketAssets.foldl (fun m a =>
          let available := (List.lookup a.asset.base m).getD 0
          insertReplace m a.asset.base (available - b.quantity.getD 1 * a.quantity))
          remaining
        ccaSelect basketAssets rest remaining'
          (selectedUsers ++ [b.user.val.id]) (selected ++ [b]) (total + b.price)
      else
        ccaSelect basketAssets rest remaining selectedUsers selected total

/-- wdp.rs `WDPSolver::maximize_welfare_cca`: greedy capacity-respecting
selection in input order, at most one winning bid per bidder id. -/
def WDPSolver.maximize_welfare_cca (bids : List Bid) (basket : Basket) :
    List Bid × ℚ :=
  let valid_bids := filter_valid_bids bids basket
  let remaining_assets := basket.assets.foldl
    (fun m a => insertReplace m a.asset.base a.quantity) []
  ccaSelect basket.assets valid_bids remaining_assets [] [] 0

/-- vcg_auction.rs `VCGAuction::compute_payments`. -/
def VCGAuction.compute_payments (bids : List Bid) (basket : Basket)
    (winning_bids : List Bid) (total_welfare : ℚ) : List (Nat × ℚ) :=
  winning_bids.foldl (fun payments wb =>
    let remaining_bids := bids.filter (fun b => b.user.val.id != wb.user.val.id)
    let welfare_without_bidder :=
      (WDPSolver.maximize_welfare_vcg remaining_bids basket).2
    let payment := welfare_without_bidder - (total_welfare - wb.price)
    insertReplace payments wb.user.val.id (max payment 0)) []

/-- Outcome of clearing.rs `Clearing::clear_winning_bids`: normal return,
the typed `Err("User cannot afford the payment")`, or a Rust panic coming
from `Arc::get_mut(user).unwrap()` returning `None`. -/
inductive ClearOutcome where
  | ok (users : List (Nat × ArcUser))
  | insufficientFunds
  | crashed
deriving Repr, DecidableEq

/-- Strong reference count of allocation `a` as visible inside the clearing
loop: handles held by bids not yet consumed, handles stored in the `users`
map, and `external a` handles held elsewhere by the caller. -/
def allocRefs (pending : List Bid) (users : List (Nat × ArcUser))
    (external : Nat → Nat) (a : Nat) : Nat :=
  external a + (pending.filter (fun b => b.user.alloc == a)).length +
    (users.filter (fun e => e.2.alloc == a)).length

/-- The loop of clearing.rs `Clearing::clear_winning_bids`.  Per bid: look up
or insert (an `Arc::clone` of) the bidder in the `users` map, return the
typed error when the tracked balance cannot afford the price, and otherwise
attempt `Arc::get_mut(user).unwrap().withdraw(price)` — which panics unless
the allocation's strong count is exactly one. -/
def clearLoop (external : Nat → Nat) :
    List (Nat × ArcUser) → List Bid → ClearOutcome
  | users, [] => .ok users
  | users, b :: rest =>
    let users1 := match List.lookup b.user.val.id users with
      | some _ => users
      | none => insertReplace users b.user.val.id b.user
    let slot := (List.lookup b.user.val.id users1).getD b.user
    if slot.val.can_afford b.price then
      if allocRefs (b :: rest) users1 external slot.alloc == 1 then
        clearLoop external
          (insertReplace users1 b.user.val.id
            { slot with val := slot.val.withdraw b.price }) rest
      else .crashed
    else .insufficientFunds

/-- clearing.rs `Clearing::clear_winning_bids`.  The allocation argument is
only printed by the source, never used. -/
def Clearing.clear_winning_bids (external : Nat → Nat) (winning_bids : List Bid)
    (_allocation : List (Nat × List AssetInfo)) : ClearOutcome :=
  clearLoop external [] winning_bids

/-- cca_auction.rs `CombiClockAuction::evaluate_bids_in_round`: keep bids of
active bidders passing `is_valid`, accumulate per-asset demand
`min(requested quantity, bid.price / current asset price)`, and report the
assets whose demand exceeds supply. -/
def CombiClockAuction.evaluate_bids_in_round (bids : List Bid) (basket : Basket)
    (prices : List (String × ℚ)) (active_bidders : List Nat) :
    List Bid × List (String × ℚ) :=
  let valid_bids := bids.filter (fun b =>
    active_bidders.contains b.user.val.id && b.is_valid)
  let total_demand := valid_bids.foldl (fun td b =>
    basket.assets.foldl (fun td a =>
      let current_price := (List.lookup a.asset.base prices).getD a.price
      let max_affordable_quantity := b.price / current_price
      let requested_quantity := b.quantity.getD 1
      let actual_demand := min requested_quantity max_affordable_quantity
      insertReplace td a.asset.base
        ((List.lookup a.asset.base td).getD 0 + actual_demand)) td)
    ([] : List (String × ℚ))
  let excess_demand := basket.assets.foldl (fun ex a =>
    let supply := a.quantity
    let demand := (List.lookup a.asset.base total_demand).getD 0
    if supply < demand then insertReplace ex a.asset.base (demand - supply)
    else ex) ([] : List (String × ℚ))
  (valid_bids, excess_demand)

/-- cca_auction.rs `CombiClockAuction::update_prices`: every asset with
positive excess demand gets `price * (1 + increment)` with
`increment = base * (1 + (excess / price) * 10)`; the lookup of the current
price panics (`unwrap`) when the asset is absent from the table, modelled
as `none`.  `updateGo` is the loop over the excess-demand entries, threading
the `new_prices` table being built. -/
def CombiClockAuction.updateGo (current_prices : List (String × ℚ))
    (base_price_increment : ℚ) :
    List (String × ℚ) → List (String × ℚ) → Option (List (String × ℚ))
  | new_prices, [] => some new_prices
  | new_prices, e :: rest =>
    if 0 < e.2 then
      match List.lookup e.1 current_prices with
      | some current_price =>
        CombiClockAuction.updateGo current_prices base_price_increment
          (insertReplace new_prices e.1
            (current_price *
              (1 + base_price_increment * (1 + e.2 / current_price * 10)))) rest
      | none => none
    else CombiClockAuction.updateGo current_prices base_price_increment
      new_prices rest

/-- cca_auction.rs `CombiClockAuction::update_prices`: starts from a clone of
the current table and applies `updateGo` over the excess-demand entries. -/
def CombiClockAuction.update_prices (current_prices : List (String × ℚ))
    (excess_demand : List (String × ℚ)) (base_price_increment : ℚ) :
    Option (List (String × ℚ)) :=
  CombiClockAuction.updateGo current_prices base_price_increment current_prices
    excess_demand

/-- cca_auction.rs `CombiClockAuction::apply_activity_rule`: intersect the
active-bidder set with the bidders having a valid bid this round. -/
def CombiClockAuction.apply_activity_rule (active_bidders : List Nat)
    (valid_bids : List Bid) : List Nat :=
  active_bidders.filter (fun uid => valid_bids.any (fun b => b.user.val.id == uid))

/-- cca_auction.rs `CombiClockAuction::allocate_assets`: one `AssetInfo` per
basket asset that has an entry in the final price table, scaled by the bid's
quantity fraction and valued at the final price. -/
def CombiClockAuction.allocate_assets (valid_bids : List Bid) (basket : Basket)
    (final_prices : List (String × ℚ)) : List (Nat × List AssetInfo) :=
  valid_bids.foldl (fun allocation b =>
    let proportion := b.quantity.getD 1
    let allocated_assets := basket.assets.filterMap (fun a =>
      (List.lookup a.asset.base final_prices).map (fun final_price =>
        let allocated_quantity := a.quantity * proportion
        AssetInfo.mk a.asset allocated_quantity
          (allocated_quantity * final_price)))
    insertReplace allocation b.user.val.id allocated_assets) []

/-- The round loop of cca_auction.rs `CombiClockAuction::run_auction`, with
the remaining round budget as fuel.  `fuel = 0` is the defensive fallthrough
after the `for` loop; `fuel = 1` marks the last permitted round.  The
`.unwrap()` of the clearing result turns both a clearing error and a
clearing panic into a panic, modelled as `none`. -/
def ccaLoop (external : Nat → Nat) (bids : List Bid) (basket : Basket)
    (price_increment : ℚ) :
    Nat → List (String × ℚ) → List Nat → List Bid →
    List (Nat × List AssetInfo) →
    Option (List Bid × List (Nat × List AssetInfo) × List (Nat × ArcUser))
  | 0, _prices, _active, best_bids, best_allocation =>
    match Clearing.clear_winning_bids external best_bids best_allocation with
    | .ok result => some (best_bids, best_allocation, result)
    | _ => none
  | fuel + 1, prices, active_bidders, best_bids, best_allocation =>
    let round := CombiClockAuction.evaluate_bids_in_round bids basket prices
      active_bidders
    let valid_bids := round.1
    let excess_demand := round.2
    if excess_demand.isEmpty || fuel == 0 then
      let owned_valid_bids := valid_bids
      let winning_bids :=
        (WDPSolver.maximize_welfare_cca owned_valid_bids basket).1
      let allocation :=
        CombiClockAuction.allocate_assets winning_bids basket prices
      match Clearing.clear_winning_bids external best_bids best_allocation with
      | .ok result => some (owned_valid_bids, allocation, result)
      | _ => none
    else
      match CombiClockAuction.update_prices prices excess_demand
        price_increment with
      | none => none
      | some new_prices =>
        let new_active :=
          CombiClockAuction.apply_activity_rule active_bidders valid_bids
        let new_best_bids := valid_bids
        let new_best_allocation :=
          CombiClockAuction.allocate_assets new_best_bids basket new_prices
        ccaLoop external bids basket price_increment fuel new_prices
          new_active new_best_bids new_best_allocation

/-- cca_auction.rs `CombiClockAuction::run_auction`. -/
def CombiClockAuction.run_auction (external : Nat → Nat) (bids : List Bid)
    (basket : Basket) (initial_prices : List (String × ℚ))
    (price_increment : ℚ) (max_rounds : Nat) :
    Option (List Bid × List (Nat × List AssetInfo) × List (Nat × ArcUser)) :=
  ccaLoop external bids basket price_increment max_rounds initial_prices
    (bids.map (fun b => b.user.val.id)) [] []

/-! ### Concrete data of the repository's test scenarios

Bidders, basket and bids taken from the crate's test modules (wdp.rs,
cca_auction.rs, clearing.rs): Alice, Bob and Charlie bidding on the
basket of 2 BTC at 30000 and 5 ETH at 2000. -/

def alice : ArcUser := ⟨1, ⟨1, "Alice", 1000000⟩⟩

def bob : ArcUser := ⟨2, ⟨2, "Bob", 2000000⟩⟩

def charlie : ArcUser := ⟨3, ⟨3, "Charlie", 3000000⟩⟩

def sampleBasket : Basket :=
  ⟨1, [⟨⟨"BTC", "USD"⟩, 2, 30000⟩, ⟨⟨"ETH", "USD"⟩, 5, 2000⟩]⟩

/-- The three bids of spec Scenario 3 (wdp.rs `setup_sample_data`): prices
60000, 70000, 80000 with quantity values 1.0, 1.5, 2.0. -/
def scenario3Bids : List Bid :=
  [⟨alice, 1, .XOR, 60000, some 1⟩,
   ⟨bob, 1, .XOR, 70000, some (3/2)⟩,
   ⟨charlie, 1, .XOR, 80000, some 2⟩]

/-- The bids of cca_auction.rs `test_cca_auction_no_excess_demand`: Alice
bids 60000 for half and 80000 for half, Bob bids 70000 for three quarters. -/
def ccaRoundBids : List Bid :=
  [⟨alice, 1, .XOR, 60000, some (1/2)⟩,
   ⟨bob, 1, .XOR, 70000, some (3/4)⟩,
   ⟨alice, 1, .XOR, 80000, some (1/2)⟩]

/-- The two bids of spec Scenario 4: Alice (balance 1,000,000) bidding
60,000 and Bob (balance 2,000,000) bidding 70,000. -/
def scenario4Bids : List Bid :=
  [⟨alice, 1, .XOR, 60000, some 1⟩, ⟨bob, 1, .XOR, 70000, some 1⟩]

/-- A batch whose first bid is affordable while the second is not: Dave has
100 against a price of 50, Eve has 10 against a price of 50. -/
def shortfallBids : List Bid :=
  [⟨⟨4, ⟨4, "Dave", 100⟩⟩, 1, .XOR, 50, none⟩,
   ⟨⟨5, ⟨5, "Eve", 10⟩⟩, 1, .XOR, 50, none⟩]

/-! ### Association-list lemmas shared by the proofs below -/

theorem lookup_insertReplace [BEq α] [LawfulBEq α] (m : List (α × β)) (k k' : α)
    (v : β) :
    List.lookup k (insertReplace m k' v)
      = if k == k' then some v else List.lookup k m := by
  induction m with
  | nil =>
    cases hkk : k == k' <;> simp [insertReplace, List.lookup, hkk]
  | cons e rest ih =>
    obtain ⟨a, b⟩ := e
    cases hak : a == k' with
    | true =>
      have ha : a = k' := by simpa using hak
      subst ha
      cases hkk : k == a <;> simp [insertReplace, List.lookup, hak, hkk]
    | false =>
      cases hka : k == a with
      | true =>
        have hk : k = a := by simpa using hka
        subst hk
        have : (k == k') = false := hak
        simp [insertReplace, hak, List.lookup, this]
      | false =>
        simp [insertReplace, hak, List.lookup, hka, ih]

theorem lookup_foldl_insertReplace [BEq κ] [LawfulBEq κ]
    (key : α → κ) (val : α → β) (l : List α) (m : List (κ × β)) (k : κ) :
    List.lookup k (l.foldl (fun acc x => insertReplace acc (key x) (val x)) m)
      = match (l.filter (fun x => key x == k)).getLast? with
        | some x => some (val x)
        | none => List.lookup k m := by
  induction l using List.reverseRecOn with
  | nil => simp
  | append_singleton l x ih =>
    rw [List.foldl_append, List.foldl_cons, List.foldl_nil, lookup_insertReplace,
      List.filter_append]
    cases hx : (key x == k) with
    | true =>
      have hk : (k == key x) = true := by
        have := eq_of_beq hx; simp [this]
      simp [List.filter_cons, hx, hk, List.getLast?_concat]
    | false =>
      have hk : (k == key x) = false := by
        have : key x ≠ k := by simpa using hx
        simpa using fun h => this h.symm
      simp [List.filter_cons, hx, hk, ih]

theorem mem_of_lookup_eq_some [BEq α] [LawfulBEq α] {l : List (α × β)} {k : α}
    {v : β} (h : List.lookup k l = some v) : (k, v) ∈ l := by
  induction l with
  | nil => simp [List.lookup] at h
  | cons e rest ih =>
    obtain ⟨a, b⟩ := e
    rw [List.lookup_cons] at h
    cases hka : k == a with
    | true =>
      rw [hka] at h
      have h1 : k = a := by simpa using hka
      have h2 : v = b := by simpa using h.symm
      subst h1; subst h2
      exact List.mem_cons_self _ _
    | false =>
      rw [hka] at h
      exact List.mem_cons_of_mem _ (ih h)

/-- C8: `filter_valid_bids` keeps exactly the input bids, in input order,
whose basket id matches the basket and which pass the validity predicate:
bidder balance at least the price, positive price, and a quantity that is
absent or lies in the half-open interval (0, 1]. -/
theorem filter_valid_bids_spec (bids : List Bid) (basket : Basket) :
    filter_valid_bids bids basket
      = bids.filter (fun b => b.basket_id == basket.id && b.is_valid) ∧
    ∀ b : Bid, (b.basket_id == basket.id && b.is_valid) = true ↔
      (b.basket_id = basket.id ∧ b.user.val.balance ≥ b.price ∧ 0 < b.price ∧
        ∀ q : ℚ, b.quantity = some q → 0 < q ∧ q ≤ 1) := by
  constructor
  · rw [filter_valid_bids, List.filter_filter]
    exact List.filter_congr (fun b _ => by rw [Bool.and_comm])
  · intro b
    cases hq : b.quantity with
    | none =>
      simp [Bid.is_valid, User.can_afford, hq, and_assoc]
    | some q =>
      simp [Bid.is_valid, User.can_afford, hq, and_assoc]

/-- C9: `allocate_basket` maps each listed bidder id to one `AssetInfo` per
basket asset, scaled by the bid's quantity fraction (1 when absent); when
several bids share a bidder id only the bundle of the last such bid is
kept, earlier ones being overwritten by the keyed insert. -/
theorem allocate_basket_keeps_last_bundle (bids : List Bid) (basket : Basket)
    (uid : Nat) :
    List.lookup uid (allocate_basket bids basket)
      = ((bids.filter (fun b => b.user.val.id == uid)).getLast?).map (fun b =>
          basket.assets.map (fun a =>
            AssetInfo.mk a.asset (a.quantity * b.quantity.getD 1)
              (a.price * (a.quantity * b.quantity.getD 1)))) := by
  have h := lookup_foldl_insertReplace (fun b : Bid => b.user.val.id)
    (fun b : Bid => basket.assets.map (fun a =>
      AssetInfo.mk a.asset (a.quantity * b.quantity.getD 1)
        (a.price * (a.quantity * b.quantity.getD 1)))) bids [] uid
  refine Eq.trans h ?_
  cases (bids.filter (fun b => b.user.val.id == uid)).getLast? <;> rfl

/-- C3: whenever the clearing loop reaches a withdrawal (the head bid passes
the affordability check), the `users` map slot is an `Arc::clone` of the
bid's own still-live handle, so the allocation's strong count is at least
two, `Arc::get_mut` returns `None` and the `unwrap` panics: settlement
neither completes nor returns the typed error. -/
theorem clearing_crashes_on_attempted_withdrawal (external : Nat → Nat) (b : Bid)
    (rest : List Bid) (allocation : List (Nat × List AssetInfo))
    (h : b.price ≤ b.user.val.balance) :
    Clearing.clear_winning_bids external (b :: rest) allocation
      = ClearOutcome.crashed ∧
    2 ≤ allocRefs (b :: rest) (insertReplace [] b.user.val.id b.user) external
      b.user.alloc := by
  have hrefs : 2 ≤ allocRefs (b :: rest) (insertReplace [] b.user.val.id b.user)
      external b.user.alloc := by
    rw [allocRefs]
    simp [insertReplace, List.filter_cons]
    omega
  refine ⟨?_, hrefs⟩
  have hca : (b.user.val.can_afford b.price) = true := by
    simp [User.can_afford]; exact h
  have hne : (allocRefs (b :: rest) (insertReplace [] b.user.val.id b.user)
      external b.user.alloc == 1) = false := by
    rw [beq_eq_false_iff_ne]
    omega
  rw [Clearing.clear_winning_bids, clearLoop]
  simp only [List.lookup_nil]
  have hlk : List.lookup b.user.val.id (insertReplace ([] : List (Nat × ArcUser))
      b.user.val.id b.user) = some b.user := by
    simp [insertReplace, List.lookup]
  simp [hlk, hca, hne]

/-- Witness for `clearing_crashes_on_attempted_withdrawal` at a concrete
one-bid batch. -/
theorem clearing_crashes_on_attempted_withdrawal_witness :
    Clearing.clear_winning_bids (fun _ => 0)
        [Bid.mk (ArcUser.mk 7 (User.mk 7 "Carol" 100)) 1 BidType.XOR 50 none] []
      = ClearOutcome.crashed ∧
    2 ≤ allocRefs [Bid.mk (ArcUser.mk 7 (User.mk 7 "Carol" 100)) 1 BidType.XOR 50 none]
        (insertReplace [] 7 (ArcUser.mk 7 (User.mk 7 "Carol" 100))) (fun _ => 0) 7 :=
  clearing_crashes_on_attempted_withdrawal (fun _ => 0)
    (Bid.mk (ArcUser.mk 7 (User.mk 7 "Carol" 100)) 1 BidType.XOR 50 none) [] []
    (by norm_num)

/-! ### VCG payment lemmas -/

theorem foldl_add_price (l : List Bid) (c : ℚ) :
    l.foldl (fun acc b => acc + b.price) c = c + (l.map Bid.price).sum := by
  induction l generalizing c with
  | nil => simp
  | cons b rest ih => simp [ih, add_assoc]

theorem maximize_welfare_vcg_total (bids : List Bid) (basket : Basket) :
    (WDPSolver.maximize_welfare_vcg bids basket).2
      = ((filter_valid_bids bids basket).map Bid.price).sum := by
  rw [WDPSolver.maximize_welfare_vcg]
  simp [foldl_add_price]

theorem price_pos_of_mem_valid (bids : List Bid) (basket : Basket) (b : Bid)
    (hb : b ∈ filter_valid_bids bids basket) : 0 < b.price := by
  rw [filter_valid_bids] at hb
  have h := (List.mem_filter.mp hb).2
  simp only [Bid.is_valid, Bool.and_eq_true, decide_eq_true_eq] at h
  exact h.1.2

/-- The welfare figure computed by `maximize_welfare_vcg` is nonnegative. -/
theorem maximize_welfare_vcg_nonneg (bids : List Bid) (basket : Basket) :
    0 ≤ (WDPSolver.maximize_welfare_vcg bids basket).2 := by
  rw [maximize_welfare_vcg_total]
  apply List.sum_nonneg
  intro x hx
  obtain ⟨b, hb, rfl⟩ := List.mem_map.mp hx
  exact le_of_lt (price_pos_of_mem_valid _ _ _ hb)

/-- A selected bid's price never exceeds the total welfare. -/
theorem price_le_welfare_vcg (bids : List Bid) (basket : Basket) (b : Bid)
    (hb : b ∈ filter_valid_bids bids basket) :
    b.price ≤ (WDPSolver.maximize_welfare_vcg bids basket).2 := by
  rw [maximize_welfare_vcg_total]
  refine List.single_le_sum ?_ _ (List.mem_map_of_mem Bid.price hb)
  intro x hx
  obtain ⟨b', hb', rfl⟩ := List.mem_map.mp hx
  exact le_of_lt (price_pos_of_mem_valid _ _ _ hb')

/-- Lookup characterization of `compute_payments` as invoked by
`run_vcg_auction`: every recorded payment is the clamped welfare
differential of some winning bid of that bidder (the last one, when a
bidder has several). -/
theorem compute_payments_lookup_char (bids : List Bid) (basket : Basket)
    (uid : Nat) (pay : ℚ)
    (h : List.lookup uid (VCGAuction.compute_payments bids basket
        (WDPSolver.maximize_welfare_vcg bids basket).1
        (WDPSolver.maximize_welfare_vcg bids basket).2) = some pay) :
    ∃ b, b ∈ filter_valid_bids bids basket ∧ b.user.val.id = uid ∧
      pay = max ((WDPSolver.maximize_welfare_vcg
            (bids.filter (fun b2 => b2.user.val.id != uid)) basket).2
          - ((WDPSolver.maximize_welfare_vcg bids basket).2 - b.price)) 0 := by
  have hchar := lookup_foldl_insertReplace
    (fun wb : Bid => wb.user.val.id)
    (fun wb : Bid => max ((WDPSolver.maximize_welfare_vcg
        (bids.filter (fun b2 => b2.user.val.id != wb.user.val.id)) basket).2
      - ((WDPSolver.maximize_welfare_vcg bids basket).2 - wb.price)) 0)
    ((WDPSolver.maximize_welfare_vcg bids basket).1) [] uid
  have h' := hchar.symm.trans h
  cases hlast : ((WDPSolver.maximize_welfare_vcg bids basket).1.filter
      (fun wb => wb.user.val.id == uid)).getLast? with
  | none =>
    rw [hlast] at h'
    exact absurd h' (by simp)
  | some b =>
    rw [hlast] at h'
    have hmemf := List.mem_of_getLast?_eq_some hlast
    have hmem : b ∈ filter_valid_bids bids basket :=
      (List.mem_filter.mp hmemf).1
    have huid : b.user.val.id = uid := by
      simpa using (List.mem_filter.mp hmemf).2
    have hpay : pay = max ((WDPSolver.maximize_welfare_vcg
        (bids.filter (fun b2 => b2.user.val.id != b.user.val.id)) basket).2
      - ((WDPSolver.maximize_welfare_vcg bids basket).2 - b.price)) 0 := by
      have := Option.some.inj h'
      exact this.symm
    rw [huid] at hpay
    exact ⟨b, hmem, huid, hpay⟩

/-- C4: in `run_vcg_auction`, every recorded payment equals
`max(0, welfare_without_bidder − (total_welfare − winner.price))` for a
winning bid of that bidder, and for every winning bid the computed payment
is nonnegative and never exceeds `welfare_without_bidder`. -/
theorem vcg_payment_formula_and_bounds (bids : List Bid) (basket : Basket)
    (uid : Nat) (pay : ℚ)
    (h : List.lookup uid (VCGAuction.compute_payments bids basket
        (WDPSolver.maximize_welfare_vcg bids basket).1
        (WDPSolver.maximize_welfare_vcg bids basket).2) = some pay) :
    (∃ b, b ∈ (WDPSolver.maximize_welfare_vcg bids basket).1 ∧
      b.user.val.id = uid ∧
      pay = max ((WDPSolver.maximize_welfare_vcg
            (bids.filter (fun b2 => b2.user.val.id != uid)) basket).2
          - ((WDPSolver.maximize_welfare_vcg bids basket).2 - b.price)) 0 ∧
      0 ≤ pay ∧
      pay ≤ (WDPSolver.maximize_welfare_vcg
          (bids.filter (fun b2 => b2.user.val.id != uid)) basket).2) ∧
    ∀ wb ∈ (WDPSolver.maximize_welfare_vcg bids basket).1,
      0 ≤ max ((WDPSolver.maximize_welfare_vcg
            (bids.filter (fun b2 => b2.user.val.id != wb.user.val.id)) basket).2
          - ((WDPSolver.maximize_welfare_vcg bids basket).2 - wb.price)) 0 ∧
      max ((WDPSolver.maximize_welfare_vcg
            (bids.filter (fun b2 => b2.user.val.id != wb.user.val.id)) basket).2
          - ((WDPSolver.maximize_welfare_vcg bids basket).2 - wb.price)) 0
        ≤ (WDPSolver.maximize_welfare_vcg
            (bids.filter (fun b2 => b2.user.val.id != wb.user.val.id)) basket).2 := by
  have hbound : ∀ wb : Bid, wb ∈ filter_valid_bids bids basket →
      max ((WDPSolver.maximize_welfare_vcg
          (bids.filter (fun b2 => b2.user.val.id != wb.user.val.id)) basket).2
        - ((WDPSolver.maximize_welfare_vcg bids basket).2 - wb.price)) 0
      ≤ (WDPSolver.maximize_welfare_vcg
          (bids.filter (fun b2 => b2.user.val.id != wb.user.val.id)) basket).2 := by
    intro wb hwb
    apply max_le
    · have := price_le_welfare_vcg bids basket wb hwb
      linarith
    · exact maximize_welfare_vcg_nonneg _ _
  constructor
  · obtain ⟨b, hmem, huid, hpay⟩ := compute_payments_lookup_char bids basket uid pay h
    refine ⟨b, hmem, huid, hpay, ?_, ?_⟩
    · rw [hpay]; exact le_max_right _ _
    · rw [hpay]
      have := hbound b hmem
      rwa [huid] at this
  · intro wb hwb
    exact ⟨le_max_right _ _, hbound wb hwb⟩

/-! ### Uniqueness-based VCG lemmas -/

theorem sum_map_filter_split (l : List α) (f : α → ℚ) (p : α → Bool) :
    ((l.filter p).map f).sum + ((l.filter (fun x => !p x)).map f).sum
      = (l.map f).sum := by
  induction l with
  | nil => simp
  | cons x rest ih =>
    cases hx : p x <;>
      simp [List.filter_cons, hx, ← ih] <;> ring

theorem filter_valid_bids_filter_comm (bids : List Bid) (basket : Basket)
    (q : Bid → Bool) :
    filter_valid_bids (bids.filter q) basket
      = (filter_valid_bids bids basket).filter q := by
  simp only [filter_valid_bids, List.filter_filter]
  exact List.filter_congr (fun b _ => by
    cases h1 : b.is_valid <;> cases h2 : (b.basket_id == basket.id) <;>
      cases h3 : q b <;> simp [h1, h2, h3])

theorem eq_singleton_of_mem_of_length_le (l : List α) (x : α) (hx : x ∈ l)
    (hlen : l.length ≤ 1) : l = [x] := by
  cases l with
  | nil => simp at hx
  | cons a t =>
    cases t with
    | nil =>
      have : x = a := by simpa using hx
      rw [this]
    | cons b t2 => simp at hlen

theorem length_filter_le_one_of_nodup_map (l : List Bid) (uid : Nat)
    (h : (l.map (fun b => b.user.val.id)).Nodup) :
    (l.filter (fun b => b.user.val.id == uid)).length ≤ 1 := by
  have hc := List.nodup_iff_count_le_one.mp h uid
  rw [List.count, List.countP_map, List.countP_eq_length_filter] at hc
  exact hc

/-- C10: when every bidder id has at most one bid valid for the basket, the
naive welfare oracle makes `welfare_without_bidder` equal
`total_welfare − winner.price`, so every recorded VCG payment is zero. -/
theorem vcg_payments_zero_when_bidders_unique (bids : List Bid) (basket : Basket)
    (huniq : ((filter_valid_bids bids basket).map (fun b => b.user.val.id)).Nodup)
    (uid : Nat) (pay : ℚ)
    (h : List.lookup uid (VCGAuction.compute_payments bids basket
        (WDPSolver.maximize_welfare_vcg bids basket).1
        (WDPSolver.maximize_welfare_vcg bids basket).2) = some pay) :
    pay = 0 := by
  obtain ⟨b, hmem, huid, hpay⟩ := compute_payments_lookup_char bids basket uid pay h
  have hW : (WDPSolver.maximize_welfare_vcg
      (bids.filter (fun b2 => b2.user.val.id != uid)) basket).2
      = (WDPSolver.maximize_welfare_vcg bids basket).2 - b.price := by
    rw [maximize_welfare_vcg_total, maximize_welfare_vcg_total,
      filter_valid_bids_filter_comm]
    have hsplit := sum_map_filter_split (filter_valid_bids bids basket) Bid.price
      (fun b2 => b2.user.val.id == uid)
    have hin : b ∈ (filter_valid_bids bids basket).filter
        (fun b2 => b2.user.val.id == uid) :=
      List.mem_filter.mpr ⟨hmem, by simp [huid]⟩
    have hone : (filter_valid_bids bids basket).filter
        (fun b2 => b2.user.val.id == uid) = [b] :=
      eq_singleton_of_mem_of_length_le _ _ hin
        (length_filter_le_one_of_nodup_map _ _ huniq)
    have hsame : (filter_valid_bids bids basket).filter
        (fun b2 => b2.user.val.id != uid)
        = (filter_valid_bids bids basket).filter
          (fun b2 => !(b2.user.val.id == uid)) :=
      List.filter_congr (fun x _ => rfl)
    rw [hsame]
    rw [hone] at hsplit
    simp only [List.map_cons, List.map_nil, List.sum_cons, List.sum_nil] at hsplit
    linarith
  rw [hpay, hW]
  simp

/-- Witness for `vcg_payment_formula_and_bounds` on the Scenario 4 bids:
Alice's recorded payment is 0 and the bounds hold. -/
theorem vcg_payment_formula_and_bounds_witness :
    (∃ b, b ∈ (WDPSolver.maximize_welfare_vcg scenario4Bids sampleBasket).1 ∧
      b.user.val.id = 1 ∧
      (0 : ℚ) = max ((WDPSolver.maximize_welfare_vcg
            (scenario4Bids.filter (fun b2 => b2.user.val.id != 1)) sampleBasket).2
          - ((WDPSolver.maximize_welfare_vcg scenario4Bids sampleBasket).2
            - b.price)) 0 ∧
      (0 : ℚ) ≤ 0 ∧
      (0 : ℚ) ≤ (WDPSolver.maximize_welfare_vcg
          (scenario4Bids.filter (fun b2 => b2.user.val.id != 1)) sampleBasket).2) ∧
    ∀ wb ∈ (WDPSolver.maximize_welfare_vcg scenario4Bids sampleBasket).1,
      0 ≤ max ((WDPSolver.maximize_welfare_vcg
            (scenario4Bids.filter
              (fun b2 => b2.user.val.id != wb.user.val.id)) sampleBasket).2
          - ((WDPSolver.maximize_welfare_vcg scenario4Bids sampleBasket).2
            - wb.price)) 0 ∧
      max ((WDPSolver.maximize_welfare_vcg
            (scenario4Bids.filter
              (fun b2 => b2.user.val.id != wb.user.val.id)) sampleBasket).2
          - ((WDPSolver.maximize_welfare_vcg scenario4Bids sampleBasket).2
            - wb.price)) 0
        ≤ (WDPSolver.maximize_welfare_vcg
            (scenario4Bids.filter
              (fun b2 => b2.user.val.id != wb.user.val.id)) sampleBasket).2 :=
  vcg_payment_formula_and_bounds scenario4Bids sampleBasket 1 0
    (by decide)

/-- Witness for `vcg_payments_zero_when_bidders_unique` on the Scenario 4
bids: each bidder id occurs once among the valid bids, and Alice's recorded
payment is 0. -/
theorem vcg_payments_zero_when_bidders_unique_witness :
    ((filter_valid_bids scenario4Bids sampleBasket).map
      (fun b => b.user.val.id)).Nodup ∧ (0 : ℚ) = 0 :=
  ⟨by decide,
   vcg_payments_zero_when_bidders_unique scenario4Bids sampleBasket
    (by decide) 1 0 (by decide)⟩

/-! ### Price-update lemmas -/

theorem updateGo_lookup_untouched (cp : List (String × ℚ)) (rate : ℚ)
    (a : String) :
    ∀ (ex m res : List (String × ℚ)),
      (∀ e ∈ ex, e.1 = a → e.2 ≤ 0) →
      CombiClockAuction.updateGo cp rate m ex = some res →
      List.lookup a res = List.lookup a m := by
  intro ex
  induction ex with
  | nil =>
    intro m res _ h
    simp only [CombiClockAuction.updateGo] at h
    cases h
    rfl
  | cons e rest ih =>
    intro m res hno h
    simp only [CombiClockAuction.updateGo] at h
    by_cases hpos : 0 < e.2
    · rw [if_pos hpos] at h
      have hne : e.1 ≠ a := by
        intro heq
        exact absurd hpos (not_lt.mpr (hno e (List.mem_cons_self _ _) heq))
      cases hcp : List.lookup e.1 cp with
      | none => rw [hcp] at h; cases h
      | some p =>
        rw [hcp] at h
        have := ih _ _ (fun x hx => hno x (List.mem_cons_of_mem _ hx)) h
        rw [this, lookup_insertReplace]
        have : (a == e.1) = false := by
          rw [beq_eq_false_iff_ne]
          exact fun hh => hne hh.symm
        rw [this]
        simp
    · rw [if_neg hpos] at h
      exact ih _ _ (fun x hx => hno x (List.mem_cons_of_mem _ hx)) h

theorem updateGo_lookup_touched (cp : List (String × ℚ)) (rate : ℚ)
    (a : String) (e0 : String × ℚ) :
    ∀ (ex m res : List (String × ℚ)),
      (ex.filter (fun x => x.1 == a && decide (0 < x.2))).getLast? = some e0 →
      CombiClockAuction.updateGo cp rate m ex = some res →
      ∃ p, List.lookup a cp = some p ∧
        List.lookup a res = some (p * (1 + rate * (1 + e0.2 / p * 10))) := by
  intro ex
  induction ex with
  | nil =>
    intro m res hlast _
    simp at hlast
  | cons e rest ih =>
    intro m res hlast h
    simp only [CombiClockAuction.updateGo] at h
    cases hpred : (e.1 == a && decide (0 < e.2)) with
    | true =>
      have hea : e.1 = a := by
        have := (Bool.and_eq_true _ _).mp hpred
        simpa using this.1
      have hpos : 0 < e.2 := by
        have := (Bool.and_eq_true _ _).mp hpred
        simpa using this.2
      rw [if_pos hpos] at h
      cases hcp : List.lookup e.1 cp with
      | none => rw [hcp] at h; cases h
      | some p =>
        rw [hcp] at h
        rw [List.filter_cons, hpred] at hlast
        have hlast2 : (e :: rest.filter
            (fun x => x.1 == a && decide (0 < x.2))).getLast? = some e0 := hlast
        cases hrest : rest.filter (fun x => x.1 == a && decide (0 < x.2)) with
        | nil =>
          rw [hrest] at hlast2
          have he0 : e0 = e := by simpa using hlast2.symm
          have hno : ∀ x ∈ rest, x.1 = a → x.2 ≤ 0 := by
            intro x hx hxa
            have := List.filter_eq_nil_iff.mp hrest x hx
            simp only [Bool.and_eq_true, beq_iff_eq, decide_eq_true_eq,
              not_and] at this
            exact not_lt.mp (this hxa)
          have hres := updateGo_lookup_untouched cp rate a rest _ _ hno h
          refine ⟨p, by rw [← hea]; exact hcp, ?_⟩
          rw [hres, lookup_insertReplace, hea, he0]
          simp
        | cons y ys =>
          rw [hrest, List.getLast?_cons_cons] at hlast2
          rw [← hrest] at hlast2
          exact ih _ _ hlast2 h
    | false =>
      rw [List.filter_cons, hpred] at hlast
      by_cases hpos : 0 < e.2
      · rw [if_pos hpos] at h
        cases hcp : List.lookup e.1 cp with
        | none => rw [hcp] at h; cases h
        | some p =>
          rw [hcp] at h
          exact ih _ _ hlast h
      · rw [if_neg hpos] at h
        exact ih _ _ hlast h

theorem one_le_price_factor (rate p e : ℚ) (hrate : 0 ≤ rate) (hp : 0 < p)
    (he : 0 < e) : 1 ≤ 1 + rate * (1 + e / p * 10) := by
  have h1 : 0 < e / p := div_pos he hp
  nlinarith

/-- C7: with a nonnegative base increment rate and positive current prices,
`update_prices` is pointwise non-decreasing (so the per-asset price table of
`run_auction` is non-decreasing from each round to the next, every round's
table being `update_prices` of the previous one): each over-demanded asset's
price is multiplied by `1 + rate * (1 + 10 * excess / price)`, every other
asset's price is unchanged, and positivity is preserved. -/
theorem cca_update_prices_monotone (current_prices excess_demand :
      List (String × ℚ)) (rate : ℚ) (new_prices : List (String × ℚ))
    (hrate : 0 ≤ rate) (hpos : ∀ e ∈ current_prices, 0 < e.2)
    (hupd : CombiClockAuction.update_prices current_prices excess_demand rate
      = some new_prices) :
    (∀ a p, List.lookup a current_prices = some p →
      ∃ p', List.lookup a new_prices = some p' ∧ p ≤ p' ∧ 0 < p') ∧
    (∀ a, (∀ x ∈ excess_demand, x.1 = a → x.2 ≤ 0) →
      List.lookup a new_prices = List.lookup a current_prices) ∧
    (∀ a e p,
      (excess_demand.filter (fun x => x.1 == a && decide (0 < x.2))).getLast?
        = some e →
      List.lookup a current_prices = some p →
      List.lookup a new_prices = some (p * (1 + rate * (1 + e.2 / p * 10)))) := by
  rw [CombiClockAuction.update_prices] at hupd
  refine ⟨?_, ?_, ?_⟩
  · intro a p hlk
    have hppos : 0 < p := hpos (a, p) (mem_of_lookup_eq_some hlk)
    cases hlast : (excess_demand.filter
        (fun x => x.1 == a && decide (0 < x.2))).getLast? with
    | none =>
      have hnil := List.getLast?_eq_none_iff.mp hlast
      have hno : ∀ x ∈ excess_demand, x.1 = a → x.2 ≤ 0 := by
        intro x hx hxa
        have := List.filter_eq_nil_iff.mp hnil x hx
        simp only [Bool.and_eq_true, beq_iff_eq, decide_eq_true_eq,
          not_and] at this
        exact not_lt.mp (this hxa)
      have := updateGo_lookup_untouched current_prices rate a excess_demand
        _ _ hno hupd
      exact ⟨p, by rw [this]; exact hlk, le_refl p, hppos⟩
    | some e0 =>
      obtain ⟨p1, hp1, hres⟩ := updateGo_lookup_touched current_prices rate a
        e0 excess_demand _ _ hlast hupd
      have hpp : p1 = p := by
        rw [hlk] at hp1
        exact (Option.some.inj hp1).symm
      subst hpp
      have he0 : 0 < e0.2 := by
        have hmem := List.mem_of_getLast?_eq_some hlast
        have := (List.mem_filter.mp hmem).2
        simp only [Bool.and_eq_true, decide_eq_true_eq] at this
        exact this.2
      have hfac := one_le_price_factor rate p1 e0.2 hrate
        (hpos (a, p1) (mem_of_lookup_eq_some hp1)) he0
      refine ⟨p1 * (1 + rate * (1 + e0.2 / p1 * 10)), hres, ?_, ?_⟩
      · exact le_mul_of_one_le_right
          (le_of_lt (hpos (a, p1) (mem_of_lookup_eq_some hp1))) hfac
      · exact mul_pos (hpos (a, p1) (mem_of_lookup_eq_some hp1))
          (lt_of_lt_of_le one_pos hfac)
  · intro a hno
    exact updateGo_lookup_untouched current_prices rate a excess_demand
      _ _ hno hupd
  · intro a e p hlast hlk
    obtain ⟨p1, hp1, hres⟩ := updateGo_lookup_touched current_prices rate a
      e excess_demand _ _ hlast hupd
    rw [hlk] at hp1
    rw [← Option.some.inj hp1] at hres
    exact hres

/-- Witness for `cca_update_prices_monotone`: one asset at price 30000 with
excess demand 1/4 and base rate 1/10 is repriced to 132001/4 ≥ 30000. -/
theorem cca_update_prices_monotone_witness :
    ∃ p', List.lookup "BTC" [("BTC", (132001 : ℚ)/4)] = some p' ∧
      (30000 : ℚ) ≤ p' ∧ 0 < p' :=
  (cca_update_prices_monotone [("BTC", 30000)] [("BTC", 1/4)] (1/10)
      [("BTC", (132001 : ℚ)/4)] (by norm_num)
      (by decide)
      (by decide)).1
    "BTC" 30000 (by decide)

/-! ### Concrete scenario evaluations -/

/-- C5: on the Scenario 3 data (quantity values 1.0, 1.5, 2.0), the greedy
solver accepts only the first bid for a total of 60000 — the second and
third bids fail the validity predicate (quantity ≤ 1) and are filtered out
before selection, contradicting the in-repo test expecting the first two
bids and 130000. -/
theorem greedy_cca_scenario3_eval :
    WDPSolver.maximize_welfare_cca scenario3Bids sampleBasket
      = ([⟨alice, 1, .XOR, 60000, some 1⟩], 60000) := by
  decide

/-- C2: clearing the Scenario 4 batch (Alice 1,000,000 paying 60,000 and Bob
2,000,000 paying 70,000) panics at `Arc::get_mut(..).unwrap()` on the first
withdrawal instead of returning balances 940,000 and 1,930,000. -/
theorem clearing_scenario4_crashes :
    Clearing.clear_winning_bids (fun _ => 0) scenario4Bids
      (allocate_basket scenario4Bids sampleBasket) = ClearOutcome.crashed := by
  decide

/-- C6: on a batch whose second bid is unaffordable (Dave 100 paying 50,
then Eve 10 paying 50), clearing panics at the first withdrawal and never
produces the `InsufficientFunds` error the tracked-balance rule predicts
for the second bid. -/
theorem clearing_shortfall_crashes_not_insufficient :
    Clearing.clear_winning_bids (fun _ => 0) shortfallBids []
      = ClearOutcome.crashed := by
  decide

/-- C1: on the no-excess-demand round of cca_auction.rs
`test_cca_auction_no_excess_demand`, `run_auction` returns all three of the
round's valid bids (not the winning bids), an allocation computed for the
single greedy winner (Alice's 60000 bid), and the settlement of the stale
`best_bids` fallback — empty before the first round — so no winning bid is
settled and the returned bidder-state map is empty. -/
theorem cca_terminal_round_settles_stale_fallback :
    CombiClockAuction.run_auction (fun _ => 0) ccaRoundBids sampleBasket
        [("BTC", 30000), ("ETH", 2000)] (1/10) 10
      = some (ccaRoundBids,
          [(1, [⟨⟨"BTC", "USD"⟩, 1, 30000⟩, ⟨⟨"ETH", "USD"⟩, 5/2, 5000⟩])],
          []) ∧
    (WDPSolver.maximize_welfare_cca ccaRoundBids sampleBasket).1
      = [⟨alice, 1, .XOR, 60000, some (1/2)⟩] := by
  constructor
  · decide
  · decide
